import Mathlib

set_option maxHeartbeats 1000000

/- Verification development for the EdgeAI smart-parking system.

   Shallow embedding of the two source files:
   * edge_simulator.py — the transmission-gating loop `run_simulation`,
     the predicted-label threshold, and the end-of-run metrics summary;
   * streamlit_dashboard.py — the wire-message decoder `parse_payload`
     together with the regex helpers it uses.

   Machine floats of the source are modelled as rationals; fallible code
   (pandas `df.loc[0, ...]` on an empty frame, Python `float(...)` on a
   malformed literal) is modelled with `Option` / `Except`. -/

/-- One row of the prepared dataframe, in timestamp order:
`occ` is the `occupied_now` column (0 or 1, from the distance threshold),
`prob` is `pred_prob`, `ts` is the rendered `timestamp`. -/
structure Sample where
  occ : Nat
  prob : ℚ
  ts : String
deriving DecidableEq

/-- The `pred_label` column of edge_simulator.py line 49:
`(df["pred_prob"] > 0.5).astype(int)` — 1 exactly when the probability
strictly exceeds the 0.5 threshold. -/
def pred_label (p : ℚ) : Nat := if mkRat 1 2 < p then 1 else 0

/-- A wire event published by the gate: `CHANGE` (Rule 1, lines 82-83) or
`PRED_CHANGE` (Rule 2, line 92). -/
inductive GateEvent where
  | Change (slot : String) (state : Nat) (ts : String)
  | PredictedChange (slot : String) (prob : ℚ) (ts : String)
deriving DecidableEq

/-- The mutable loop state of `run_simulation`: `last` is `last_state`,
`edge` is `edge_tx`, `trad` is `trad_tx`. -/
structure GateState where
  last : Nat
  edge : Nat
  trad : Nat
deriving DecidableEq

/-- One iteration of the loop body of `run_simulation` (lines 70-98):
`trad_tx` always increments; Rule 1 fires on an occupancy flip and updates
`last_state`; else Rule 2 fires when `pred_label == 1`; else suppress. -/
def gateStep (st : GateState) (s : Sample) : GateState × Option GateEvent :=
  if s.occ ≠ st.last then
    (⟨s.occ, st.edge + 1, st.trad + 1⟩, some (GateEvent.Change "slot1" s.occ s.ts))
  else if pred_label s.prob = 1 then
    (⟨st.last, st.edge + 1, st.trad + 1⟩, some (GateEvent.PredictedChange "slot1" s.prob s.ts))
  else
    (⟨st.last, st.edge, st.trad + 1⟩, none)

/-- The whole loop of `run_simulation`, also collecting the published
events in order. -/
def runGate : GateState → List Sample → GateState × List GateEvent
  | st, [] => (st, [])
  | st, s :: rest =>
    ((runGate (gateStep st s).1 rest).1,
      (gateStep st s).2.toList ++ (runGate (gateStep st s).1 rest).2)

/-- Initial state of the loop (line 64): `last_state = df.loc[0, "occupied_now"]`,
both counters zero. -/
def initState (s0 : Sample) : GateState := ⟨s0.occ, 0, 0⟩

/-- `run_simulation(df)` of edge_simulator.py (lines 63-100): returns
`(edge_tx, trad_tx)`.  On an empty frame the very first statement
`df.loc[0, "occupied_now"]` raises `KeyError`, modelled as `none`. -/
def run_simulation (rows : List Sample) : Option (Nat × Nat) :=
  match rows with
  | [] => none
  | s0 :: rest =>
    some ((runGate (initState s0) (s0 :: rest)).1.edge,
          (runGate (initState s0) (s0 :: rest)).1.trad)

/-- Loop state just before sample `i` is processed (state after the first
`i` samples). -/
def stateAt (st : GateState) : List Sample → Nat → GateState
  | [], _ => st
  | _ :: _, 0 => st
  | s :: rest, i + 1 => stateAt (gateStep st s).1 rest i

/-- The event (if any) emitted while processing sample `i`. -/
def eventAt (st : GateState) : List Sample → Nat → Option GateEvent
  | [], _ => none
  | s :: _, 0 => (gateStep st s).2
  | s :: rest, i + 1 => eventAt (gateStep st s).1 rest i

/-- Decimal digit character: `digitChar d` is `'0'..'9'` for `d < 10`. -/
def digitChar (d : Nat) : Char := Char.ofNat (48 + d)

/-- Decimal rendering of a natural number (what a Python f-string interpolates
for an int). -/
def natToChars (n : Nat) : List Char :=
  if h : n < 10 then [digitChar n]
  else natToChars (n / 10) ++ [digitChar (n % 10)]
decreasing_by exact Nat.div_lt_self (by omega) (by omega)

/-- Numeric value of a list of decimal digit characters (Python `int` on an
all-digits string). -/
def digitsToNat (l : List Char) : Nat :=
  l.foldl (fun a c => 10 * a + (c.toNat - 48)) 0

/-- Round a rational to the nearest integer, ties to even — the rounding used
by Python float formatting. -/
def roundHalfEven (q : ℚ) : ℤ :=
  if q - (⌊q⌋ : ℚ) < 1 / 2 then ⌊q⌋
  else if 1 / 2 < q - (⌊q⌋ : ℚ) then ⌊q⌋ + 1
  else if ⌊q⌋ % 2 = 0 then ⌊q⌋ else ⌊q⌋ + 1

/-- Python `f"{q:.2f}"`: fixed-point rendering with exactly two fractional
digits. -/
def fmt2 (q : ℚ) : List Char :=
  (if roundHalfEven (q * 100) < 0 then ['-'] else [])
    ++ (natToChars ((roundHalfEven (q * 100)).natAbs / 100)
    ++ ('.' :: [digitChar ((roundHalfEven (q * 100)).natAbs / 10 % 10),
                digitChar ((roundHalfEven (q * 100)).natAbs % 10)]))

/-- The reduction percentage of edge_simulator.py line 108:
`100 * (1 - edge_tx / trad_tx) if trad_tx > 0 else 0.0`. -/
def reduction (edge trad : Nat) : ℚ :=
  if 0 < trad then 100 * (1 - (edge : ℚ) / (trad : ℚ)) else 0

/-- The metrics summary published at line 109-111:
`f"Traditional={trad_tx}, EdgeAI={edge_tx}, Reduction={reduction:.2f}%"`. -/
def summary (edge trad : Nat) : String :=
  String.mk ("Traditional=".data ++ (natToChars trad
    ++ (", EdgeAI=".data ++ (natToChars edge
    ++ (", Reduction=".data ++ (fmt2 (reduction edge trad) ++ "%".data))))))

/-- Whitespace class of Python `str.strip` and regex `\\s` (ASCII). -/
def isWS (c : Char) : Bool :=
  c = ' ' || c = '\t' || c = '\n' || c = '\r' || c = '\x0b' || c = '\x0c'

def dropWS : List Char → List Char
  | [] => []
  | c :: l => if isWS c then dropWS l else c :: l

/-- Python `str.strip`: drop leading and trailing whitespace. -/
def stripL (l : List Char) : List Char :=
  (dropWS (dropWS l).reverse).reverse

def startsWithL : List Char → List Char → Bool
  | [], _ => true
  | _ :: _, [] => false
  | p :: ps, c :: cs => if p = c then startsWithL ps cs else false

/-- Python `str.endswith`. -/
def endsWithL (pat l : List Char) : Bool := startsWithL pat.reverse l.reverse

/-- Python substring test `pat in text`. -/
def hasSubL (pat : List Char) : List Char → Bool
  | [] => startsWithL pat []
  | c :: rest => startsWithL pat (c :: rest) || hasSubL pat rest

/-- The character class `[\\d\\.]` of the probability regex. -/
def classChar (c : Char) : Bool := c.isDigit || c = '.'

/-- Leftmost match of `re.search(r"prob=([\\d\\.]+)", text)` (line 86):
the captured group. -/
def searchProbL : List Char → Option (List Char)
  | [] => none
  | c :: l =>
    if startsWithL "prob=".data (c :: l) then
      match ((c :: l).drop 5).takeWhile classChar with
      | [] => searchProbL l
      | d :: ds => some (d :: ds)
    else searchProbL l

/-- Match of `state\\s*=\\s*(\\d+)` anchored at the head of the list. -/
def matchStateAt (l : List Char) : Option (List Char) :=
  if startsWithL "state".data l then
    match dropWS (l.drop 5) with
    | '=' :: l2 =>
      match (dropWS l2).takeWhile Char.isDigit with
      | [] => none
      | d :: ds => some (d :: ds)
    | _ => none
  else none

/-- Leftmost match of `re.search(r"state\\s*=\\s*(\\d+)", text)` (line 95):
the captured digits. -/
def searchStateL : List Char → Option (List Char)
  | [] => none
  | c :: l =>
    match matchStateAt (c :: l) with
    | some cap => some cap
    | none => searchStateL l

/-- Leftmost match of `re.search(r"slot(\\d+)", topic)` (line 62):
the captured digits. -/
def searchSlotL : List Char → Option (List Char)
  | [] => none
  | c :: l =>
    if startsWithL "slot".data (c :: l) then
      match ((c :: l).drop 4).takeWhile Char.isDigit with
      | [] => searchSlotL l
      | d :: ds => some (d :: ds)
    else searchSlotL l

/-- Slot-id extraction of streamlit_dashboard.py lines 62-63, with the
`"slot1"` fallback. -/
def extractSlot (topic : String) : String :=
  match searchSlotL topic.data with
  | some ds => String.mk ("slot".data ++ ds)
  | none => "slot1"

/-- Python `float` on a string drawn from the class `[\\d\\.]+`: succeeds iff
the text has at least one digit and at most one dot; on success the value is
`intpart + fracpart / 10 ^ fracdigits`. -/
def parseFloatQ (l : List Char) : Option ℚ :=
  if l.any Char.isDigit && l.all classChar then
    if (l.dropWhile (fun c => c != '.')).isEmpty then
      some (mkRat (digitsToNat (l.takeWhile (fun c => c != '.'))) 1)
    else
      if ((l.dropWhile (fun c => c != '.')).drop 1).any (fun c => c == '.') then none
      else
        some (mkRat (digitsToNat (l.takeWhile (fun c => c != '.'))
              * 10 ^ ((l.dropWhile (fun c => c != '.')).drop 1).length
            + digitsToNat ((l.dropWhile (fun c => c != '.')).drop 1))
          (10 ^ ((l.dropWhile (fun c => c != '.')).drop 1).length))
  else none

/-- Python `int` on arbitrary stripped text: optional sign, then digits. -/
def parsePyInt (l : List Char) : Option Int :=
  match l with
  | '-' :: rest =>
    if rest.all Char.isDigit && !rest.isEmpty then some (-(digitsToNat rest : Int)) else none
  | '+' :: rest =>
    if rest.all Char.isDigit && !rest.isEmpty then some ((digitsToNat rest : Int)) else none
  | _ => if l.all Char.isDigit && !l.isEmpty then some ((digitsToNat l : Int)) else none

/-- The typed record the dashboard appends to its per-slot history: which
branch of `parse_payload` fired and the numeric field it extracted
(`none` is Python `None`, the unknown sentinel). -/
inductive Decoded where
  | metricsMsg (slot : String) (text : String)
  | predChange (slot : String) (prob : Option ℚ)
  | changeMsg (slot : String) (state : Option Nat)
  | stateMsg (slot : String) (val : Option Int) (text : String)
  | rawMsg (slot : String) (text : String)
deriving DecidableEq

/-- `parse_payload(topic, payload)` of streamlit_dashboard.py lines 50-118.
Branch order as in the source: metrics topic, then `"PRED_CHANGE" in text`,
then `text.startswith("CHANGE")`, then `topic.endswith("/state")`, then raw.
The unguarded `float(prob_match.group(1))` on line 87 can raise `ValueError`,
modelled as `Except.error`. -/
def decode (topic payload : String) : Except String Decoded :=
  if endsWithL "metrics/transmissions".data topic.data then
    Except.ok (Decoded.metricsMsg (extractSlot topic) (String.mk (stripL payload.data)))
  else if hasSubL "PRED_CHANGE".data (stripL payload.data) then
    match searchProbL (stripL payload.data) with
    | some cap =>
      match parseFloatQ cap with
      | some q => Except.ok (Decoded.predChange (extractSlot topic) (some q))
      | none => Except.error "ValueError"
    | none => Except.ok (Decoded.predChange (extractSlot topic) none)
  else if startsWithL "CHANGE".data (stripL payload.data) then
    Except.ok (Decoded.changeMsg (extractSlot topic)
      ((searchStateL (stripL payload.data)).map digitsToNat))
  else if endsWithL "/state".data topic.data then
    Except.ok (Decoded.stateMsg (extractSlot topic) (parsePyInt (stripL payload.data))
      (String.mk (stripL payload.data)))
  else
    Except.ok (Decoded.rawMsg (extractSlot topic) (String.mk (stripL payload.data)))

/-- Python `f"{q:.3f}"`: fixed-point rendering with exactly three fractional
digits (line 92). -/
def fmt3 (q : ℚ) : List Char :=
  (if roundHalfEven (q * 1000) < 0 then ['-'] else [])
    ++ (natToChars ((roundHalfEven (q * 1000)).natAbs / 1000)
    ++ ('.' :: [digitChar ((roundHalfEven (q * 1000)).natAbs / 100 % 10),
                digitChar ((roundHalfEven (q * 1000)).natAbs / 10 % 10),
                digitChar ((roundHalfEven (q * 1000)).natAbs % 10)]))

/-- `MQTT_TOPIC_EVENT` of edge_simulator.py line 18. -/
def eventTopic : String := "smartparking/slot1/event"

/-- Serialization of a gate event as published on lines 82 and 92:
the (topic, payload) pair handed to `client.publish`. -/
def encodeEvent : GateEvent → String × String
  | GateEvent.Change _ stv ts =>
    (eventTopic,
      String.mk ("CHANGE: state=".data ++ (natToChars stv ++ (", ts=".data ++ ts.data))))
  | GateEvent.PredictedChange _ p ts =>
    (eventTopic,
      String.mk ("PRED_CHANGE: prob=".data ++ (fmt3 p ++ (", ts=".data ++ ts.data))))

/-- Characters that occur in a rendered pandas timestamp: digits and
`- : space T .` separators. -/
def tsCharB (c : Char) : Bool :=
  c.isDigit || c = '-' || c = ':' || c = ' ' || c = 'T' || c = '.'

theorem stateAt_zero (st : GateState) (ss : List Sample) : stateAt st ss 0 = st := by
  cases ss <;> rfl

theorem gateStep_trad (st : GateState) (s : Sample) :
    (gateStep st s).1.trad = st.trad + 1 := by
  unfold gateStep
  split
  · rfl
  · split <;> rfl

theorem gateStep_edge_le (st : GateState) (s : Sample) :
    (gateStep st s).1.edge ≤ st.edge + 1 := by
  unfold gateStep
  split
  · exact le_refl _
  · split
    · exact le_refl _
    · exact Nat.le_succ _

theorem gateStep_last (st : GateState) (s : Sample) :
    (gateStep st s).1.last = s.occ := by
  unfold gateStep
  split
  · rfl
  · next h =>
    have h' : s.occ = st.last := by
      by_contra hc
      exact h hc
    split <;> simp [h']

theorem gate_index (st : GateState) (ss : List Sample) (i : Nat) (hi : i < ss.length) :
    eventAt st ss i = (gateStep (stateAt st ss i) (ss.get ⟨i, hi⟩)).2
    ∧ stateAt st ss (i + 1) = (gateStep (stateAt st ss i) (ss.get ⟨i, hi⟩)).1 := by
  induction ss generalizing st i with
  | nil => exact absurd hi (Nat.not_lt_zero i)
  | cons s rest ih =>
    cases i with
    | zero =>
      refine ⟨rfl, ?_⟩
      show stateAt (gateStep st s).1 rest 0 = _
      rw [stateAt_zero]
      rfl
    | succ j =>
      have hj : j < rest.length := Nat.lt_of_succ_lt_succ hi
      exact ih (gateStep st s).1 j hj

theorem runGate_trad (st : GateState) (ss : List Sample) :
    (runGate st ss).1.trad = st.trad + ss.length := by
  induction ss generalizing st with
  | nil => rfl
  | cons s rest ih =>
    show (runGate (gateStep st s).1 rest).1.trad = _
    rw [ih, gateStep_trad]
    simp [List.length_cons]
    omega

theorem gateStep_rule1 (st : GateState) (s : Sample) (h : s.occ ≠ st.last) :
    gateStep st s
      = (⟨s.occ, st.edge + 1, st.trad + 1⟩, some (GateEvent.Change "slot1" s.occ s.ts)) := by
  unfold gateStep
  rw [if_pos h]

theorem gateStep_rule2 (st : GateState) (s : Sample) (h : s.occ = st.last)
    (hp : pred_label s.prob = 1) :
    gateStep st s
      = (⟨st.last, st.edge + 1, st.trad + 1⟩,
          some (GateEvent.PredictedChange "slot1" s.prob s.ts)) := by
  unfold gateStep
  rw [if_neg (by simp [h]), if_pos hp]

theorem gateStep_rule3 (st : GateState) (s : Sample) (h : s.occ = st.last)
    (hp : pred_label s.prob ≠ 1) :
    gateStep st s = (⟨st.last, st.edge, st.trad + 1⟩, none) := by
  unfold gateStep
  rw [if_neg (by simp [h]), if_neg hp]

theorem runGate_edge_le (st : GateState) (ss : List Sample) :
    (runGate st ss).1.edge ≤ st.edge + ss.length := by
  induction ss generalizing st with
  | nil => exact Nat.le_refl _
  | cons s rest ih =>
    show (runGate (gateStep st s).1 rest).1.edge ≤ _
    have h1 := ih (gateStep st s).1
    have h2 := gateStep_edge_le st s
    simp only [List.length_cons]
    omega

/-- C1: processing a sequence in timestamp order for one slot, at each sample
`i` a `Change` event carrying `new_state = occupancy[i]` is emitted iff
`occupancy[i]` differs from the current `last_occupancy`; when emitted,
`last_occupancy` is set to `occupancy[i]`, `edge_tx_count` increments by one,
and the emitted event is the `Change` (Rule 2 is not evaluated); no `Change`
is emitted when `occupancy[i]` equals `last_occupancy`. -/
theorem C1_confirmed_change_events (s0 : Sample) (rest : List Sample) (i : Nat)
    (hi : i < (s0 :: rest).length) :
    (eventAt (initState s0) (s0 :: rest) i
        = some (GateEvent.Change "slot1" (((s0 :: rest).get ⟨i, hi⟩).occ)
            (((s0 :: rest).get ⟨i, hi⟩).ts))
      ↔ ((s0 :: rest).get ⟨i, hi⟩).occ ≠ (stateAt (initState s0) (s0 :: rest) i).last)
    ∧ (((s0 :: rest).get ⟨i, hi⟩).occ ≠ (stateAt (initState s0) (s0 :: rest) i).last →
        (stateAt (initState s0) (s0 :: rest) (i + 1)).last = ((s0 :: rest).get ⟨i, hi⟩).occ
        ∧ (stateAt (initState s0) (s0 :: rest) (i + 1)).edge
            = (stateAt (initState s0) (s0 :: rest) i).edge + 1)
    ∧ (((s0 :: rest).get ⟨i, hi⟩).occ = (stateAt (initState s0) (s0 :: rest) i).last →
        ∀ sl v t, eventAt (initState s0) (s0 :: rest) i ≠ some (GateEvent.Change sl v t)) := by
  obtain ⟨hev, hst⟩ := gate_index (initState s0) (s0 :: rest) i hi
  by_cases h : ((s0 :: rest).get ⟨i, hi⟩).occ = (stateAt (initState s0) (s0 :: rest) i).last
  · by_cases hp : pred_label (((s0 :: rest).get ⟨i, hi⟩).prob) = 1
    · rw [gateStep_rule2 _ _ h hp] at hev hst
      refine ⟨?_, ?_, ?_⟩
      · rw [hev]
        exact iff_of_false (by simp) (not_not.mpr h)
      · intro hc
        exact absurd h hc
      · intro _ sl v t
        rw [hev]
        simp
    · rw [gateStep_rule3 _ _ h hp] at hev hst
      refine ⟨?_, ?_, ?_⟩
      · rw [hev]
        exact iff_of_false (by simp) (not_not.mpr h)
      · intro hc
        exact absurd h hc
      · intro _ sl v t
        rw [hev]
        simp
  · rw [gateStep_rule1 _ _ h] at hev hst
    refine ⟨?_, ?_, ?_⟩
    · rw [hev]
      exact iff_of_true rfl h
    · intro _
      rw [hst]
      exact ⟨rfl, rfl⟩
    · intro hc
      exact absurd hc h

/-- C1 witness: on occupancy `[0, 1]` with zero probabilities, sample 1 emits
`Change(1)`. -/
theorem C1_witness :
    eventAt (initState ⟨0, 0, "t0"⟩) [⟨0, 0, "t0"⟩, ⟨1, 0, "t1"⟩] 1
      = some (GateEvent.Change "slot1" 1 "t1") :=
  (C1_confirmed_change_events ⟨0, 0, "t0"⟩ [⟨1, 0, "t1"⟩] 1 (by decide)).1.mpr (by decide)

/-- C2: a `PredictedChange` event is emitted at sample `i` iff Rule 1 did not
fire (occupancy equals `last_occupancy`) and `pred_label = 1`, where
`pred_label = 1` exactly when the probability strictly exceeds 0.5; emitting
it increments `edge_tx_count` but leaves `last_occupancy` unchanged; when
neither rule fires no event is emitted. -/
theorem C2_predicted_change_events (s0 : Sample) (rest : List Sample) (i : Nat)
    (hi : i < (s0 :: rest).length) :
    (eventAt (initState s0) (s0 :: rest) i
        = some (GateEvent.PredictedChange "slot1" (((s0 :: rest).get ⟨i, hi⟩).prob)
            (((s0 :: rest).get ⟨i, hi⟩).ts))
      ↔ (((s0 :: rest).get ⟨i, hi⟩).occ = (stateAt (initState s0) (s0 :: rest) i).last
          ∧ pred_label (((s0 :: rest).get ⟨i, hi⟩).prob) = 1))
    ∧ (∀ p : ℚ, pred_label p = 1 ↔ 1 / 2 < p)
    ∧ (((s0 :: rest).get ⟨i, hi⟩).occ = (stateAt (initState s0) (s0 :: rest) i).last →
        pred_label (((s0 :: rest).get ⟨i, hi⟩).prob) = 1 →
        (stateAt (initState s0) (s0 :: rest) (i + 1)).edge
            = (stateAt (initState s0) (s0 :: rest) i).edge + 1
        ∧ (stateAt (initState s0) (s0 :: rest) (i + 1)).last
            = (stateAt (initState s0) (s0 :: rest) i).last)
    ∧ (((s0 :: rest).get ⟨i, hi⟩).occ = (stateAt (initState s0) (s0 :: rest) i).last →
        pred_label (((s0 :: rest).get ⟨i, hi⟩).prob) ≠ 1 →
        eventAt (initState s0) (s0 :: rest) i = none) := by
  obtain ⟨hev, hst⟩ := gate_index (initState s0) (s0 :: rest) i hi
  have hlabel : ∀ p : ℚ, pred_label p = 1 ↔ 1 / 2 < p := by
    intro p
    have hmk : (mkRat 1 2 : ℚ) = 1 / 2 := by
      rw [Rat.mkRat_eq_div]
      norm_num
    unfold pred_label
    rw [hmk]
    split
    · next hq => exact iff_of_true rfl hq
    · next hq => exact iff_of_false (by omega) hq
  by_cases h : ((s0 :: rest).get ⟨i, hi⟩).occ = (stateAt (initState s0) (s0 :: rest) i).last
  · by_cases hp : pred_label (((s0 :: rest).get ⟨i, hi⟩).prob) = 1
    · rw [gateStep_rule2 _ _ h hp] at hev hst
      refine ⟨?_, hlabel, ?_, ?_⟩
      · rw [hev]
        exact iff_of_true rfl ⟨h, hp⟩
      · intro _ _
        rw [hst]
        exact ⟨rfl, rfl⟩
      · intro _ hc
        exact absurd hp hc
    · rw [gateStep_rule3 _ _ h hp] at hev hst
      refine ⟨?_, hlabel, ?_, ?_⟩
      · rw [hev]
        exact iff_of_false (by simp) (fun hand => hp hand.2)
      · intro _ hc
        exact absurd hc hp
      · intro _ _
        exact hev
  · rw [gateStep_rule1 _ _ h] at hev hst
    refine ⟨?_, hlabel, ?_, ?_⟩
    · rw [hev]
      exact iff_of_false (by simp) (fun hand => h hand.1)
    · intro hc
      exact absurd hc h
    · intro hc
      exact absurd hc h

/-- C2 witness: a single stable sample with probability 3/4 emits
`PredictedChange`. -/
theorem C2_witness :
    eventAt (initState ⟨1, mkRat 3 4, "t2"⟩) [⟨1, mkRat 3 4, "t2"⟩] 0
      = some (GateEvent.PredictedChange "slot1" (mkRat 3 4) "t2") :=
  (C2_predicted_change_events ⟨1, mkRat 3 4, "t2"⟩ [] 0 (by decide)).1.mpr (by decide)

/-- C3: whenever the gating loop finishes on `N` samples, `trad_tx_count = N`
and `edge_tx_count ≤ trad_tx_count`. -/
theorem C3_counter_invariant (ss : List Sample) (e t : Nat)
    (h : run_simulation ss = some (e, t)) : t = ss.length ∧ e ≤ t := by
  cases ss with
  | nil => exact absurd h (by simp [run_simulation])
  | cons s0 rest =>
    have hpair : (runGate (initState s0) (s0 :: rest)).1.edge = e
        ∧ (runGate (initState s0) (s0 :: rest)).1.trad = t := by
      simpa [run_simulation] using h
    have htr := runGate_trad (initState s0) (s0 :: rest)
    have hed := runGate_edge_le (initState s0) (s0 :: rest)
    have hz1 : (initState s0).trad = 0 := rfl
    have hz2 : (initState s0).edge = 0 := rfl
    obtain ⟨h1, h2⟩ := hpair
    omega

/-- C3 witness: one stable sample yields `trad_tx = 1 = N` and `edge_tx = 0`. -/
theorem C3_witness : 1 = [(⟨0, 0, "t3"⟩ : Sample)].length ∧ 0 ≤ 1 :=
  C3_counter_invariant [⟨0, 0, "t3"⟩] 0 1 (by decide)

/-- C4: `last_occupancy` is seeded from the first sample, the first sample
never yields a `Change` event, and after each sample `last_occupancy` equals
that sample's occupancy. -/
theorem C4_last_occupancy_tracking (s0 : Sample) (rest : List Sample) :
    (initState s0).last = s0.occ
    ∧ (∀ sl v t, eventAt (initState s0) (s0 :: rest) 0 ≠ some (GateEvent.Change sl v t))
    ∧ (∀ i, ∀ hi : i < (s0 :: rest).length,
        (stateAt (initState s0) (s0 :: rest) (i + 1)).last
          = ((s0 :: rest).get ⟨i, hi⟩).occ) := by
  refine ⟨rfl, ?_, ?_⟩
  · intro sl v t
    show (gateStep (initState s0) s0).2 ≠ _
    have h : s0.occ = (initState s0).last := rfl
    by_cases hp : pred_label s0.prob = 1
    · rw [gateStep_rule2 _ _ h hp]
      simp
    · rw [gateStep_rule3 _ _ h hp]
      simp
  · intro i hi
    rw [(gate_index (initState s0) (s0 :: rest) i hi).2, gateStep_last]

/-- C4 witness: after occupancy `[1, 0]`, `last_occupancy` is 0. -/
theorem C4_witness :
    (stateAt (initState ⟨1, 0, "t4"⟩) [⟨1, 0, "t4"⟩, ⟨0, 0, "t5"⟩] 2).last = 0 :=
  (C4_last_occupancy_tracking ⟨1, 0, "t4"⟩ [⟨0, 0, "t5"⟩]).2.2 1 (by decide)

theorem digitChar_isDigit (d : Nat) (h : d < 10) : (digitChar d).isDigit = true := by
  interval_cases d <;> decide

theorem digitChar_toNat (d : Nat) (h : d < 10) : (digitChar d).toNat = 48 + d := by
  interval_cases d <;> decide

theorem natToChars_all_digits (n : Nat) : ∀ c ∈ natToChars n, c.isDigit = true := by
  induction n using Nat.strong_induction_on with
  | _ n ih =>
    rw [natToChars]
    split
    · next h =>
      intro c hc
      simp only [List.mem_singleton] at hc
      subst hc
      exact digitChar_isDigit n h
    · next h =>
      intro c hc
      rw [List.mem_append] at hc
      rcases hc with hc | hc
      · exact ih (n / 10) (Nat.div_lt_self (by omega) (by omega)) c hc
      · simp only [List.mem_singleton] at hc
        subst hc
        exact digitChar_isDigit (n % 10) (Nat.mod_lt _ (by omega))

theorem natToChars_ne_nil (n : Nat) : natToChars n ≠ [] := by
  rw [natToChars]
  split
  · simp
  · simp

theorem digitsToNat_append_digit (l : List Char) (c : Char) :
    digitsToNat (l ++ [c]) = 10 * digitsToNat l + (c.toNat - 48) := by
  unfold digitsToNat
  rw [List.foldl_append]
  rfl

theorem digitsToNat_natToChars (n : Nat) : digitsToNat (natToChars n) = n := by
  induction n using Nat.strong_induction_on with
  | _ n ih =>
    rw [natToChars]
    split
    · next h =>
      show digitsToNat [digitChar n] = n
      unfold digitsToNat
      simp only [List.foldl]
      rw [digitChar_toNat n h]
      omega
    · next h =>
      rw [digitsToNat_append_digit, ih (n / 10) (Nat.div_lt_self (by omega) (by omega)),
          digitChar_toNat (n % 10) (Nat.mod_lt _ (by omega))]
      omega

/-- C5: the end-of-run metrics satisfy
`reduction_pct = 100 * (1 - edge/trad)` when `trad > 0` and `0` otherwise,
and the payload renders `Traditional` (decimal integer), `EdgeAI` (decimal
integer), `Reduction` (two fractional digits followed by `%`), in that order,
comma-space separated. -/
theorem C5_metrics_payload (e t : Nat) :
    (0 < t → reduction e t = 100 * (1 - (e : ℚ) / (t : ℚ)))
    ∧ (t = 0 → reduction e t = 0)
    ∧ (summary e t).data
        = ("Traditional=".data ++ natToChars t)
          ++ ((", ".data ++ ("EdgeAI=".data ++ natToChars e))
          ++ (", ".data ++ ("Reduction=".data ++ (fmt2 (reduction e t) ++ "%".data))))
    ∧ digitsToNat (natToChars t) = t
    ∧ digitsToNat (natToChars e) = e
    ∧ ∃ ip fp, fmt2 (reduction e t) = ip ++ '.' :: fp ∧ fp.length = 2 := by
  refine ⟨?_, ?_, ?_, digitsToNat_natToChars t, digitsToNat_natToChars e, ?_⟩
  · intro ht
    unfold reduction
    rw [if_pos ht]
  · intro ht
    subst ht
    rfl
  · rfl
  · refine ⟨(if roundHalfEven (reduction e t * 100) < 0 then ['-'] else [])
        ++ natToChars ((roundHalfEven (reduction e t * 100)).natAbs / 100),
      [digitChar ((roundHalfEven (reduction e t * 100)).natAbs / 10 % 10),
       digitChar ((roundHalfEven (reduction e t * 100)).natAbs % 10)], ?_, rfl⟩
    unfold fmt2
    rw [List.append_assoc]

/-- C5 witness: with 2 edge and 5 traditional transmissions the reduction
formula applies. -/
theorem C5_witness : reduction 2 5 = 100 * (1 - ((2 : Nat) : ℚ) / ((5 : Nat) : ℚ)) :=
  (C5_metrics_payload 2 5).1 (by decide)

/-- C7: on the empty input sequence the claim fails in the code: the very
first statement of `run_simulation` (`df.loc[0, "occupied_now"]`) raises
`KeyError`, so the run never completes (modelled as `none`); the
division-by-zero guard itself would indeed report 0. -/
theorem C7_empty_input_crash :
    run_simulation ([] : List Sample) = none ∧ reduction 0 0 = 0 :=
  ⟨rfl, rfl⟩

theorem startsWithL_self_append (p t : List Char) : startsWithL p (p ++ t) = true := by
  induction p with
  | nil => rfl
  | cons a ps ih => simp [startsWithL, ih]

theorem startsWithL_decomp (p l : List Char) (h : startsWithL p l = true) :
    l = p ++ l.drop p.length := by
  induction p generalizing l with
  | nil => simp
  | cons a ps ih =>
    cases l with
    | nil => simp [startsWithL] at h
    | cons c cs =>
      simp only [startsWithL] at h
      split at h
      · next heq =>
        have := ih cs h
        simp only [List.length_cons, List.drop_succ_cons, List.cons_append]
        rw [heq]
        exact congrArg _ this
      · exact absurd h (by simp)

theorem takeWhile_pred (p : Char → Bool) (l : List Char) :
    ∀ x ∈ l.takeWhile p, p x = true := by
  induction l with
  | nil => simp
  | cons c cs ih =>
    intro x hx
    rw [List.takeWhile_cons] at hx
    split at hx
    · next hc =>
      rcases List.mem_cons.mp hx with rfl | hx'
      · exact hc
      · exact ih x hx'
    · simp at hx

theorem searchSlotL_cons (c : Char) (l : List Char) :
    searchSlotL (c :: l)
      = if startsWithL "slot".data (c :: l) then
          match ((c :: l).drop 4).takeWhile Char.isDigit with
          | [] => searchSlotL l
          | d :: ds => some (d :: ds)
        else searchSlotL l := rfl

theorem searchSlotL_sound (l ds : List Char) (h : searchSlotL l = some ds) :
    ∃ m₁ m₂, l = m₁ ++ ("slot".data ++ ds) ++ m₂ ∧ ds ≠ []
      ∧ ∀ x ∈ ds, x.isDigit = true := by
  induction l with
  | nil => simp [searchSlotL] at h
  | cons c cs ih =>
    rw [searchSlotL_cons] at h
    split at h
    · next hs =>
      split at h
      · next htw =>
        obtain ⟨m₁, m₂, heq, hne, hdig⟩ := ih h
        exact ⟨c :: m₁, m₂, by simp [heq, List.append_assoc], hne, hdig⟩
      · next d ds' htw =>
        have hds : ds = d :: ds' := (Option.some.inj h).symm
        have hdecomp := startsWithL_decomp _ _ hs
        have htail : (c :: cs).drop ("slot".data).length
            = ds ++ ((c :: cs).drop 4).dropWhile Char.isDigit := by
          show (c :: cs).drop 4 = _
          rw [hds, ← htw, List.takeWhile_append_dropWhile]
        refine ⟨[], ((c :: cs).drop 4).dropWhile Char.isDigit, ?_, by simp [hds], ?_⟩
        · rw [List.nil_append]
          conv_lhs => rw [hdecomp, htail]
          rw [List.append_assoc]
        · intro x hx
          rw [hds, ← htw] at hx
          exact takeWhile_pred _ _ x hx
    · obtain ⟨m₁, m₂, heq, hne, hdig⟩ := ih h
      exact ⟨c :: m₁, m₂, by simp [heq, List.append_assoc], hne, hdig⟩

theorem searchSlotL_complete (l₁ l₂ : List Char) (c : Char) (hc : c.isDigit = true) :
    searchSlotL (l₁ ++ ("slot".data ++ (c :: l₂))) ≠ none := by
  induction l₁ with
  | nil =>
    show searchSlotL ('s' :: ("lot".data ++ (c :: l₂))) ≠ none
    rw [searchSlotL_cons]
    have hsw : startsWithL "slot".data ('s' :: ("lot".data ++ (c :: l₂))) = true :=
      startsWithL_self_append "slot".data (c :: l₂)
    rw [if_pos hsw]
    have ht : (('s' :: ("lot".data ++ (c :: l₂))).drop 4).takeWhile Char.isDigit
        = c :: l₂.takeWhile Char.isDigit := by
      show (c :: l₂).takeWhile Char.isDigit = _
      rw [List.takeWhile_cons, if_pos hc]
    rw [ht]
    simp
  | cons a l₁ ih =>
    show searchSlotL (a :: (l₁ ++ ("slot".data ++ (c :: l₂)))) ≠ none
    rw [searchSlotL_cons]
    split
    · split
      · exact ih
      · simp
    · exact ih

/-- C9: code bug in `parse_payload` — the claim (missing or non-numeric
numeric fields default to the `None` sentinel and the event is still
recorded) holds for a missing probability and for a missing / non-numeric
state, but a probability text that matches `[\d\.]+` while not being a valid
float literal (for example `1.2.3`) makes the unguarded
`float(prob_match.group(1))` raise `ValueError`, so no event is recorded. -/
theorem C9_pred_prob_value_error :
    decode "smartparking/slot1/event" "PRED_CHANGE: prob=1.2.3, ts=2024-05-01 10:00:00"
        = Except.error "ValueError"
    ∧ decode "smartparking/slot1/event" "PRED_CHANGE: ts=2024-05-01 10:00:00"
        = Except.ok (Decoded.predChange "slot1" none)
    ∧ decode "smartparking/slot1/event" "CHANGE: ts=2024-05-01 10:00:00"
        = Except.ok (Decoded.changeMsg "slot1" none) :=
  ⟨rfl, rfl, rfl⟩

/-- C8: the decoder takes the slot id from the decimal digits following the
literal `slot` in the topic, falling back to `slot1` when there is no such
match; Scenario D decodes as claimed. -/
theorem C8_slot_extraction :
    (∀ topic : String,
      (¬ ∃ l₁ c l₂, topic.data = l₁ ++ ("slot".data ++ (c :: l₂)) ∧ c.isDigit = true) →
      extractSlot topic = "slot1")
    ∧ (∀ (topic : String) (l₁ l₂ : List Char) (c : Char),
        topic.data = l₁ ++ ("slot".data ++ (c :: l₂)) → c.isDigit = true →
        ∃ ds m₁ m₂, ds ≠ [] ∧ (∀ x ∈ ds, x.isDigit = true)
          ∧ topic.data = m₁ ++ ("slot".data ++ ds) ++ m₂
          ∧ extractSlot topic = String.mk ("slot".data ++ ds))
    ∧ decode "ns/slot3/event" "PRED_CHANGE: prob=0.998, ts=2024-01-01T00:00:00"
        = Except.ok (Decoded.predChange "slot3" (some (998 / 1000 : ℚ))) := by
  refine ⟨?_, ?_, ?_⟩
  · intro topic hno
    unfold extractSlot
    cases hsearch : searchSlotL topic.data with
    | none => rfl
    | some ds =>
      obtain ⟨m₁, m₂, heq, hne, hdig⟩ := searchSlotL_sound _ _ hsearch
      exfalso
      obtain ⟨d, ds', rfl⟩ := List.exists_cons_of_ne_nil hne
      refine hno ⟨m₁, d, ds' ++ m₂, ?_, hdig d (by simp)⟩
      rw [heq]
      simp [List.append_assoc]
  · intro topic l₁ l₂ c heq hc
    cases hsearch : searchSlotL topic.data with
    | none =>
      exfalso
      apply searchSlotL_complete l₁ l₂ c hc
      rw [← heq]
      exact hsearch
    | some ds =>
      obtain ⟨m₁, m₂, hdc, hne, hdig⟩ := searchSlotL_sound _ _ hsearch
      refine ⟨ds, m₁, m₂, hne, hdig, hdc, ?_⟩
      unfold extractSlot
      rw [hsearch]
  · have h1 : decode "ns/slot3/event" "PRED_CHANGE: prob=0.998, ts=2024-01-01T00:00:00"
        = Except.ok (Decoded.predChange "slot3" (some (mkRat 998 1000))) := rfl
    have h2 : (mkRat 998 1000 : ℚ) = 998 / 1000 := by
      rw [Rat.mkRat_eq_div]
      norm_num
    rw [h1, h2]

/-- C8 witness: a topic with no `slot<digits>` segment falls back to
`slot1`. -/
theorem C8_witness : extractSlot "abc" = "slot1" := by
  apply C8_slot_extraction.1
  rintro ⟨l₁, c, l₂, h, -⟩
  rw [show "abc".data = ['a', 'b', 'c'] from rfl,
      show "slot".data = ['s', 'l', 'o', 't'] from rfl] at h
  have hlen := congrArg List.length h
  simp at hlen
  omega

/-- C10 counterexample: a `/state`-topic payload containing `PRED_CHANGE`
whose probability text matches `[\d\.]+` but is not a valid float makes the
decoder raise instead of recording a predicted-change event, so the claim
"it is recorded as a predicted-change event" fails as stated. -/
theorem C10_counterexample :
    endsWithL "metrics/transmissions".data ("ns/slot2/state".data) = false
    ∧ endsWithL "/state".data ("ns/slot2/state".data) = true
    ∧ hasSubL "PRED_CHANGE".data (stripL ("PRED_CHANGE: prob=9.9.9, ts=t".data)) = true
    ∧ decode "ns/slot2/state" "PRED_CHANGE: prob=9.9.9, ts=t" = Except.error "ValueError" :=
  ⟨rfl, rfl, rfl, rfl⟩

/-- C10 (amended): for every non-metrics message whose stripped payload
contains `PRED_CHANGE`, the decoder dispatches to the predicted-change
branch — even on a `/state` topic: it records a predicted-change event when
the probability capture is absent or parses as a float, and raises (recording
nothing) when the capture is not a valid float; a raw occupancy snapshot is
recorded only for payloads matching neither `PRED_CHANGE` nor a `CHANGE`
prefix on a `/state` topic. -/
theorem C10_dispatch_amended :
    (∀ topic payload : String,
      endsWithL "metrics/transmissions".data topic.data = false →
      hasSubL "PRED_CHANGE".data (stripL payload.data) = true →
        (searchProbL (stripL payload.data) = none →
          decode topic payload = Except.ok (Decoded.predChange (extractSlot topic) none))
        ∧ (∀ cap q, searchProbL (stripL payload.data) = some cap →
            parseFloatQ cap = some q →
            decode topic payload = Except.ok (Decoded.predChange (extractSlot topic) (some q)))
        ∧ (∀ cap, searchProbL (stripL payload.data) = some cap →
            parseFloatQ cap = none →
            decode topic payload = Except.error "ValueError"))
    ∧ (∀ (topic payload slot : String) (v : Option Int) (txt : String),
        decode topic payload = Except.ok (Decoded.stateMsg slot v txt) →
          endsWithL "/state".data topic.data = true
          ∧ hasSubL "PRED_CHANGE".data (stripL payload.data) = false
          ∧ startsWithL "CHANGE".data (stripL payload.data) = false) := by
  constructor
  · intro topic payload h1 h2
    refine ⟨?_, ?_, ?_⟩
    · intro hs
      simp [decode, h1, h2, hs]
    · intro cap q hs hq
      simp [decode, h1, h2, hs, hq]
    · intro cap hs hq
      simp [decode, h1, h2, hs, hq]
  · intro topic payload slot v txt h
    unfold decode at h
    by_cases hA : endsWithL "metrics/transmissions".data topic.data = true
    · rw [if_pos hA] at h
      exact absurd h (by simp)
    · rw [if_neg hA] at h
      by_cases hB : hasSubL "PRED_CHANGE".data (stripL payload.data) = true
      · rw [if_pos hB] at h
        cases hsp : searchProbL (stripL payload.data) with
        | some cap =>
          rw [hsp] at h
          cases hq : parseFloatQ cap with
          | some q => simp [hq] at h
          | none => simp [hq] at h
        | none =>
          rw [hsp] at h
          simp at h
      · rw [if_neg hB] at h
        by_cases hC : startsWithL "CHANGE".data (stripL payload.data) = true
        · rw [if_pos hC] at h
          exact absurd h (by simp)
        · rw [if_neg hC] at h
          rw [Bool.not_eq_true] at hB hC
          by_cases hD : endsWithL "/state".data topic.data = true
          · exact ⟨hD, hB, hC⟩
          · rw [if_neg hD] at h
            exact absurd h (by simp)

/-- C10 witness: a valid `PRED_CHANGE` payload on a bare `/state` topic is
recorded as a predicted-change event with the parsed probability. -/
theorem C10_witness :
    decode "b/state" "PRED_CHANGE: prob=0.75, ts=x"
      = Except.ok (Decoded.predChange "slot1" (some (mkRat 75 100))) :=
  (C10_dispatch_amended.1 "b/state" "PRED_CHANGE: prob=0.75, ts=x" rfl rfl).2.1
    ['0', '.', '7', '5'] (mkRat 75 100) rfl rfl

theorem data_mk (l : List Char) : (String.mk l).data = l := rfl

theorem dropWS_cons_not (c : Char) (l : List Char) (h : isWS c = false) :
    dropWS (c :: l) = c :: l := by
  simp [dropWS, h]

theorem dropWS_append_cons (l m : List Char) (c : Char) (h : isWS c = false) :
    dropWS (l ++ c :: m) = dropWS l ++ c :: m := by
  induction l with
  | nil =>
    rw [List.nil_append]
    rw [dropWS_cons_not _ _ h]
    rfl
  | cons a l ih =>
    show dropWS (a :: (l ++ c :: m)) = _
    by_cases ha : isWS a = true
    · simp [dropWS, ha, ih]
    · rw [Bool.not_eq_true] at ha
      rw [dropWS_cons_not _ _ ha, dropWS_cons_not _ _ ha]
      rfl

theorem mem_dropWS (l : List Char) (x : Char) (h : x ∈ dropWS l) : x ∈ l := by
  induction l with
  | nil => simpa [dropWS] using h
  | cons c cs ih =>
    by_cases hc : isWS c = true
    · unfold dropWS at h
      rw [if_pos hc] at h
      exact List.mem_cons_of_mem _ (ih h)
    · rw [Bool.not_eq_true] at hc
      rw [dropWS_cons_not _ _ hc] at h
      exact h

theorem stripL_shape (p0 : Char) (pmid : List Char) (pl : Char) (ts : List Char)
    (h0 : isWS p0 = false) (hl : isWS pl = false) :
    ∃ ts', stripL (((p0 :: pmid) ++ [pl]) ++ ts) = ((p0 :: pmid) ++ [pl]) ++ ts'
      ∧ ∀ x ∈ ts', x ∈ ts := by
  unfold stripL
  have h1 : dropWS (((p0 :: pmid) ++ [pl]) ++ ts) = ((p0 :: pmid) ++ [pl]) ++ ts := by
    show dropWS (p0 :: ((pmid ++ [pl]) ++ ts)) = _
    rw [dropWS_cons_not _ _ h0]
    rfl
  rw [h1]
  have h2 : ((((p0 :: pmid) ++ [pl]) ++ ts)).reverse
      = ts.reverse ++ (pl :: (p0 :: pmid).reverse) := by
    rw [List.reverse_append, List.reverse_append]
    simp
  rw [h2, dropWS_append_cons _ _ _ hl, List.reverse_append]
  refine ⟨(dropWS ts.reverse).reverse, ?_, ?_⟩
  · congr 1
    rw [List.reverse_cons, List.reverse_reverse]
  · intro x hx
    rw [List.mem_reverse] at hx
    have hx2 := mem_dropWS _ _ hx
    rw [List.mem_reverse] at hx2
    exact hx2

theorem hasSubL_head_false (c0 : Char) (pat l : List Char) (h : ∀ x ∈ l, x ≠ c0) :
    hasSubL (c0 :: pat) l = false := by
  induction l with
  | nil => rfl
  | cons a rest ih =>
    show (startsWithL (c0 :: pat) (a :: rest) || hasSubL (c0 :: pat) rest) = false
    rw [ih (fun x hx => h x (List.mem_cons_of_mem _ hx))]
    have ha : a ≠ c0 := h a (List.mem_cons_self _ _)
    show ((if c0 = a then startsWithL pat rest else false) || false) = false
    rw [if_neg (fun heq => ha heq.symm)]
    rfl

theorem hasSubL_of_startsWith (pat l : List Char) (h : startsWithL pat l = true) :
    hasSubL pat l = true := by
  cases l with
  | nil => exact h
  | cons c rest =>
    show (startsWithL pat (c :: rest) || hasSubL pat rest) = true
    rw [h]
    rfl

theorem takeWhile_append_stop (P : Char → Bool) (l m : List Char) (c : Char)
    (hl : ∀ x ∈ l, P x = true) (hc : P c = false) :
    (l ++ c :: m).takeWhile P = l := by
  induction l with
  | nil => simp [List.takeWhile_cons, hc]
  | cons a as ih =>
    rw [List.cons_append, List.takeWhile_cons, hl a (List.mem_cons_self a as)]
    simp only [if_true]
    rw [ih (fun x hx => hl x (List.mem_cons_of_mem _ hx))]

theorem dropWhile_append_stop (P : Char → Bool) (l m : List Char) (c : Char)
    (hl : ∀ x ∈ l, P x = true) (hc : P c = false) :
    (l ++ c :: m).dropWhile P = c :: m := by
  induction l with
  | nil => simp [List.dropWhile_cons, hc]
  | cons a as ih =>
    rw [List.cons_append, List.dropWhile_cons, hl a (List.mem_cons_self a as)]
    simp only [if_true]
    exact ih (fun x hx => hl x (List.mem_cons_of_mem _ hx))

theorem searchProbL_cons (c : Char) (l : List Char) :
    searchProbL (c :: l)
      = if startsWithL "prob=".data (c :: l) then
          match ((c :: l).drop 5).takeWhile classChar with
          | [] => searchProbL l
          | d :: ds => some (d :: ds)
        else searchProbL l := rfl

theorem searchProbL_skip (pre X : List Char) (h : ∀ x ∈ pre, x ≠ 'p') :
    searchProbL (pre ++ X) = searchProbL X := by
  induction pre with
  | nil => rfl
  | cons a pre ih =>
    show searchProbL (a :: (pre ++ X)) = _
    rw [searchProbL_cons]
    have ha : a ≠ 'p' := h a (List.mem_cons_self _ _)
    have hsw : startsWithL "prob=".data (a :: (pre ++ X)) = false := by
      show (if 'p' = a then startsWithL "rob=".data (pre ++ X) else false) = false
      rw [if_neg (fun heq => ha heq.symm)]
    rw [if_neg (by rw [hsw]; simp)]
    exact ih (fun x hx => h x (List.mem_cons_of_mem _ hx))

theorem searchProbL_at (X : List Char) (d : Char) (ds : List Char)
    (hX : X.takeWhile classChar = d :: ds) :
    searchProbL ("prob=".data ++ X) = some (d :: ds) := by
  show searchProbL ('p' :: ("rob=".data ++ X)) = _
  rw [searchProbL_cons]
  have hsw : startsWithL "prob=".data ('p' :: ("rob=".data ++ X)) = true := by
    show startsWithL "prob=".data ("prob=".data ++ X) = true
    exact startsWithL_self_append _ _
  rw [if_pos hsw]
  have hdrop : (('p' :: ("rob=".data ++ X)).drop 5).takeWhile classChar = d :: ds := by
    show X.takeWhile classChar = d :: ds
    exact hX
  rw [hdrop]

theorem tsCharB_ne_P (c : Char) (h : tsCharB c = true) : c ≠ 'P' := by
  intro hc
  subst hc
  exact absurd h (by decide)

theorem tsCharB_ne_p (c : Char) (h : tsCharB c = true) : c ≠ 'p' := by
  intro hc
  subst hc
  exact absurd h (by decide)

theorem roundHalfEven_nonneg (q : ℚ) (h : 0 ≤ q) : 0 ≤ roundHalfEven q := by
  have hf : 0 ≤ ⌊q⌋ := Int.floor_nonneg.mpr h
  unfold roundHalfEven
  split
  · exact hf
  · split
    · omega
    · split
      · exact hf
      · omega

theorem roundHalfEven_abs (q : ℚ) : |(roundHalfEven q : ℚ) - q| ≤ 1 / 2 := by
  have h0 : (⌊q⌋ : ℚ) ≤ q := Int.floor_le q
  have h1 : q < (⌊q⌋ : ℚ) + 1 := Int.lt_floor_add_one q
  unfold roundHalfEven
  split
  · next hlt =>
    rw [abs_le]
    constructor <;> linarith
  · next hge =>
    push_neg at hge
    split
    · next hgt =>
      rw [abs_le]
      push_cast
      constructor <;> linarith
    · next hle =>
      push_neg at hle
      split
      · rw [abs_le]
        constructor <;> linarith
      · rw [abs_le]
        push_cast
        constructor <;> linarith

theorem digitsToNat_three (a b c : Nat) (ha : a < 10) (hb : b < 10) (hc : c < 10) :
    digitsToNat [digitChar a, digitChar b, digitChar c] = 100 * a + 10 * b + c := by
  unfold digitsToNat
  simp only [List.foldl_cons, List.foldl_nil]
  rw [digitChar_toNat a ha, digitChar_toNat b hb, digitChar_toNat c hc]
  omega

theorem fmt3_eq_of_nonneg (p : ℚ) (hp : 0 ≤ p) :
    fmt3 p = natToChars ((roundHalfEven (p * 1000)).natAbs / 1000)
      ++ ('.' :: [digitChar ((roundHalfEven (p * 1000)).natAbs / 100 % 10),
                  digitChar ((roundHalfEven (p * 1000)).natAbs / 10 % 10),
                  digitChar ((roundHalfEven (p * 1000)).natAbs % 10)]) := by
  have hn : 0 ≤ roundHalfEven (p * 1000) :=
    roundHalfEven_nonneg _ (mul_nonneg hp (by norm_num))
  unfold fmt3
  rw [if_neg (by omega), List.nil_append]

theorem parseFloatQ_digits (m : Nat) :
    parseFloatQ (natToChars (m / 1000)
        ++ ('.' :: [digitChar (m / 100 % 10), digitChar (m / 10 % 10), digitChar (m % 10)]))
      = some (mkRat m 1000) := by
  have hAdig : ∀ x ∈ natToChars (m / 1000), x.isDigit = true := natToChars_all_digits _
  have hAne : ∀ x ∈ natToChars (m / 1000), (x != '.') = true := by
    intro x hx
    rw [bne_iff_ne]
    intro hxe
    have hd := hAdig x hx
    rw [hxe] at hd
    exact absurd hd (by decide)
  have hBdig1 : (digitChar (m / 100 % 10)).isDigit = true :=
    digitChar_isDigit _ (Nat.mod_lt _ (by omega))
  have hBdig2 : (digitChar (m / 10 % 10)).isDigit = true :=
    digitChar_isDigit _ (Nat.mod_lt _ (by omega))
  have hBdig3 : (digitChar (m % 10)).isDigit = true :=
    digitChar_isDigit _ (Nat.mod_lt _ (by omega))
  have hguard : ((natToChars (m / 1000)
      ++ ('.' :: [digitChar (m / 100 % 10), digitChar (m / 10 % 10),
          digitChar (m % 10)])).any Char.isDigit
      && (natToChars (m / 1000)
      ++ ('.' :: [digitChar (m / 100 % 10), digitChar (m / 10 % 10),
          digitChar (m % 10)])).all classChar) = true := by
    rw [Bool.and_eq_true]
    refine ⟨?_, ?_⟩
    · rw [List.any_eq_true]
      obtain ⟨a0, arest, hA0⟩ := List.exists_cons_of_ne_nil (natToChars_ne_nil (m / 1000))
      refine ⟨a0, by rw [hA0]; simp, hAdig a0 (by rw [hA0]; simp)⟩
    · rw [List.all_eq_true]
      intro x hx
      rcases List.mem_append.mp hx with hx | hx
      · simp [classChar, hAdig x hx]
      · rcases List.mem_cons.mp hx with rfl | hx
        · decide
        · rcases List.mem_cons.mp hx with rfl | hx
          · simp [classChar, hBdig1]
          · rcases List.mem_cons.mp hx with rfl | hx
            · simp [classChar, hBdig2]
            · rcases List.mem_cons.mp hx with rfl | hx
              · simp [classChar, hBdig3]
              · simp at hx
  have hBne : ([digitChar (m / 100 % 10), digitChar (m / 10 % 10),
      digitChar (m % 10)].any (fun c => c == '.')) = false := by
    rw [List.any_eq_false]
    intro x hx
    rcases List.mem_cons.mp hx with rfl | hx
    · simp only [beq_iff_eq]
      intro hxe
      rw [hxe] at hBdig1
      exact absurd hBdig1 (by decide)
    · rcases List.mem_cons.mp hx with rfl | hx
      · simp only [beq_iff_eq]
        intro hxe
        rw [hxe] at hBdig2
        exact absurd hBdig2 (by decide)
      · rcases List.mem_cons.mp hx with rfl | hx
        · simp only [beq_iff_eq]
          intro hxe
          rw [hxe] at hBdig3
          exact absurd hBdig3 (by decide)
        · simp at hx
  unfold parseFloatQ
  rw [if_pos hguard]
  rw [dropWhile_append_stop _ _ _ '.' hAne (by decide),
      takeWhile_append_stop _ _ _ '.' hAne (by decide)]
  rw [if_neg (by simp)]
  simp only [List.drop_succ_cons, List.drop_zero]
  rw [if_neg (by rw [hBne]; simp)]
  rw [digitsToNat_natToChars,
      digitsToNat_three _ _ _ (Nat.mod_lt _ (by omega)) (Nat.mod_lt _ (by omega))
        (Nat.mod_lt _ (by omega)),
      show ([digitChar (m / 100 % 10), digitChar (m / 10 % 10),
        digitChar (m % 10)] : List Char).length = 3 from rfl]
  have h4 : m / 1000 * 10 ^ 3 + (100 * (m / 100 % 10) + 10 * (m / 10 % 10) + m % 10) = m := by
    omega
  have h5 : ((m / 1000 : ℕ) : ℤ) * 10 ^ 3
      + ((100 * (m / 100 % 10) + 10 * (m / 10 % 10) + m % 10 : ℕ) : ℤ) = ((m : ℕ) : ℤ) := by
    exact_mod_cast h4
  rw [h5]
  norm_num

theorem parseFloatQ_fmt3 (p : ℚ) (hp : 0 ≤ p) :
    parseFloatQ (fmt3 p) = some (mkRat (roundHalfEven (p * 1000)).natAbs 1000) := by
  rw [fmt3_eq_of_nonneg p hp]
  exact parseFloatQ_digits _

theorem fmt3_all_class (p : ℚ) (hp : 0 ≤ p) : ∀ x ∈ fmt3 p, classChar x = true := by
  rw [fmt3_eq_of_nonneg p hp]
  intro x hx
  rcases List.mem_append.mp hx with hx | hx
  · simp [classChar, natToChars_all_digits _ x hx]
  · rcases List.mem_cons.mp hx with rfl | hx
    · decide
    · rcases List.mem_cons.mp hx with rfl | hx
      · simp [classChar, digitChar_isDigit _ (Nat.mod_lt _ (by omega))]
      · rcases List.mem_cons.mp hx with rfl | hx
        · simp [classChar, digitChar_isDigit _ (Nat.mod_lt _ (by omega))]
        · rcases List.mem_cons.mp hx with rfl | hx
          · simp [classChar, digitChar_isDigit _ (Nat.mod_lt _ (by omega))]
          · simp at hx

theorem decode_change_payload (stv : Nat) (ts1 : String)
    (hst : stv = 0 ∨ stv = 1) (hts1 : ∀ c ∈ ts1.data, tsCharB c = true) :
    decode eventTopic
        (String.mk ("CHANGE: state=".data ++ (natToChars stv ++ (", ts=".data ++ ts1.data))))
      = Except.ok (Decoded.changeMsg "slot1" (some stv)) := by
  rcases hst with rfl | rfl
  · have hnat : natToChars 0 = ['0'] := by
      rw [natToChars]
      rfl
    rw [hnat]
    obtain ⟨ts', hstrip, hmem⟩ := stripL_shape 'C' ("HANGE: state=0, ts".data) '=' ts1.data rfl rfl
    have hconc : ∀ y ∈ (('C' :: "HANGE: state=0, ts".data) ++ ['=']), y ≠ 'P' := by decide
    have hB : hasSubL "PRED_CHANGE".data
        ((('C' :: "HANGE: state=0, ts".data) ++ ['=']) ++ ts') = false := by
      apply hasSubL_head_false
      intro x hx
      rcases List.mem_append.mp hx with hx | hx
      · exact hconc x hx
      · exact tsCharB_ne_P x (hts1 x (hmem x hx))
    have hmet : endsWithL "metrics/transmissions".data eventTopic.data = false := rfl
    have hC : startsWithL "CHANGE".data
        ((('C' :: "HANGE: state=0, ts".data) ++ ['=']) ++ ts') = true := rfl
    have hS : searchStateL ((('C' :: "HANGE: state=0, ts".data) ++ ['=']) ++ ts')
        = some ['0'] := rfl
    show decode eventTopic
        (String.mk ((('C' :: "HANGE: state=0, ts".data) ++ ['=']) ++ ts1.data)) = _
    unfold decode
    rw [data_mk, hstrip]
    rw [if_neg (by rw [hmet]; simp)]
    rw [if_neg (by rw [hB]; simp)]
    rw [if_pos hC, hS]
    rfl
  · have hnat : natToChars 1 = ['1'] := by
      rw [natToChars]
      rfl
    rw [hnat]
    obtain ⟨ts', hstrip, hmem⟩ := stripL_shape 'C' ("HANGE: state=1, ts".data) '=' ts1.data rfl rfl
    have hconc : ∀ y ∈ (('C' :: "HANGE: state=1, ts".data) ++ ['=']), y ≠ 'P' := by decide
    have hB : hasSubL "PRED_CHANGE".data
        ((('C' :: "HANGE: state=1, ts".data) ++ ['=']) ++ ts') = false := by
      apply hasSubL_head_false
      intro x hx
      rcases List.mem_append.mp hx with hx | hx
      · exact hconc x hx
      · exact tsCharB_ne_P x (hts1 x (hmem x hx))
    have hmet : endsWithL "metrics/transmissions".data eventTopic.data = false := rfl
    have hC : startsWithL "CHANGE".data
        ((('C' :: "HANGE: state=1, ts".data) ++ ['=']) ++ ts') = true := rfl
    have hS : searchStateL ((('C' :: "HANGE: state=1, ts".data) ++ ['=']) ++ ts')
        = some ['1'] := rfl
    show decode eventTopic
        (String.mk ((('C' :: "HANGE: state=1, ts".data) ++ ['=']) ++ ts1.data)) = _
    unfold decode
    rw [data_mk, hstrip]
    rw [if_neg (by rw [hmet]; simp)]
    rw [if_neg (by rw [hB]; simp)]
    rw [if_pos hC, hS]
    rfl

theorem decode_pred_payload (p : ℚ) (ts2 : String)
    (hp0 : 0 ≤ p) (hts2 : ∀ c ∈ ts2.data, tsCharB c = true) :
    decode eventTopic
        (String.mk ("PRED_CHANGE: prob=".data ++ (fmt3 p ++ (", ts=".data ++ ts2.data))))
      = Except.ok (Decoded.predChange "slot1"
          (some (mkRat (roundHalfEven (p * 1000)).natAbs 1000))) := by
  have hclass : ∀ x ∈ fmt3 p, classChar x = true := fmt3_all_class p hp0
  have hform : "PRED_CHANGE: prob=".data ++ (fmt3 p ++ (", ts=".data ++ ts2.data))
      = (('P' :: ("RED_CHANGE: prob=".data ++ (fmt3 p ++ ", ts".data))) ++ ['=']) ++ ts2.data := by
    show 'P' :: ("RED_CHANGE: prob=".data ++ (fmt3 p ++ (", ts".data ++ ('=' :: ts2.data))))
        = 'P' :: ((("RED_CHANGE: prob=".data ++ (fmt3 p ++ ", ts".data)) ++ ['=']) ++ ts2.data)
    congr 1
    simp [List.append_assoc]
  obtain ⟨ts', hstrip, hmem⟩ :=
    stripL_shape 'P' ("RED_CHANGE: prob=".data ++ (fmt3 p ++ ", ts".data)) '=' ts2.data rfl rfl
  have hform2 : (('P' :: ("RED_CHANGE: prob=".data ++ (fmt3 p ++ ", ts".data))) ++ ['=']) ++ ts'
      = "PRED_CHANGE: ".data ++ ("prob=".data ++ (fmt3 p ++ (", ts".data ++ ('=' :: ts')))) := by
    show 'P' :: ((("RED_CHANGE: prob=".data ++ (fmt3 p ++ ", ts".data)) ++ ['=']) ++ ts')
        = 'P' :: ("RED_CHANGE: prob=".data ++ (fmt3 p ++ (", ts".data ++ ('=' :: ts'))))
    congr 1
    simp [List.append_assoc]
  have hFne : fmt3 p ≠ [] := by
    rw [fmt3_eq_of_nonneg p hp0]
    obtain ⟨a0, arest, hA0⟩ := List.exists_cons_of_ne_nil
      (natToChars_ne_nil ((roundHalfEven (p * 1000)).natAbs / 1000))
    rw [hA0]
    simp
  obtain ⟨f0, frest, hF⟩ := List.exists_cons_of_ne_nil hFne
  have hcap : (fmt3 p ++ (", ts".data ++ ('=' :: ts'))).takeWhile classChar = f0 :: frest := by
    rw [show (fmt3 p ++ (", ts".data ++ ('=' :: ts')))
        = (fmt3 p ++ (',' :: (" ts".data ++ ('=' :: ts')))) from rfl]
    rw [takeWhile_append_stop _ _ _ ',' hclass (by decide)]
    exact hF
  have hsearch : searchProbL ("PRED_CHANGE: ".data
      ++ ("prob=".data ++ (fmt3 p ++ (", ts".data ++ ('=' :: ts')))))
      = some (f0 :: frest) := by
    rw [searchProbL_skip "PRED_CHANGE: ".data _ (by decide)]
    exact searchProbL_at _ _ _ hcap
  have hparse : parseFloatQ (f0 :: frest)
      = some (mkRat (roundHalfEven (p * 1000)).natAbs 1000) := by
    rw [← hF]
    exact parseFloatQ_fmt3 p hp0
  have hB : hasSubL "PRED_CHANGE".data
      ((('P' :: ("RED_CHANGE: prob=".data ++ (fmt3 p ++ ", ts".data))) ++ ['=']) ++ ts') = true := by
    apply hasSubL_of_startsWith
    rfl
  have hmet : endsWithL "metrics/transmissions".data eventTopic.data = false := rfl
  rw [hform]
  unfold decode
  rw [data_mk, hstrip]
  rw [if_neg (by rw [hmet]; simp)]
  rw [if_pos hB]
  rw [hform2, hsearch]
  simp only [hparse]
  rfl

/-- C6: decoding the encoded wire message of any gate event reproduces the
slot id, the event kind, and the numeric payload — the state exactly and the
probability within 3-decimal-place tolerance (the payload carries
`prob={p:.3f}`). Timestamps range over strings of digits and the separator
characters of a rendered pandas timestamp. -/
theorem C6_wire_roundtrip (stv : Nat) (p : ℚ) (ts1 ts2 : String)
    (hst : stv = 0 ∨ stv = 1) (hp0 : 0 ≤ p) (hp1 : p ≤ 1)
    (hts1 : ∀ c ∈ ts1.data, tsCharB c = true) (hts2 : ∀ c ∈ ts2.data, tsCharB c = true) :
    decode (encodeEvent (GateEvent.Change "slot1" stv ts1)).1
        (encodeEvent (GateEvent.Change "slot1" stv ts1)).2
      = Except.ok (Decoded.changeMsg "slot1" (some stv))
    ∧ ∃ q : ℚ, decode (encodeEvent (GateEvent.PredictedChange "slot1" p ts2)).1
          (encodeEvent (GateEvent.PredictedChange "slot1" p ts2)).2
        = Except.ok (Decoded.predChange "slot1" (some q))
      ∧ |q - p| ≤ 1 / 1000 := by
  constructor
  · exact decode_change_payload stv ts1 hst hts1
  · refine ⟨mkRat (roundHalfEven (p * 1000)).natAbs 1000, ?_, ?_⟩
    · exact decode_pred_payload p ts2 hp0 hts2
    · have habs := roundHalfEven_abs (p * 1000)
      have hn : 0 ≤ roundHalfEven (p * 1000) :=
        roundHalfEven_nonneg _ (mul_nonneg hp0 (by norm_num))
      have hmq : (mkRat ((roundHalfEven (p * 1000)).natAbs) 1000 : ℚ)
          = ((roundHalfEven (p * 1000) : ℤ) : ℚ) / 1000 := by
        rw [Rat.mkRat_eq_div]
        congr 1
        exact_mod_cast congrArg (fun z : ℤ => (z : ℚ)) (Int.natAbs_of_nonneg hn)
      rw [hmq]
      have key : ((roundHalfEven (p * 1000) : ℤ) : ℚ) / 1000 - p
          = (((roundHalfEven (p * 1000) : ℤ) : ℚ) - p * 1000) / 1000 := by
        ring
      rw [key, abs_div, abs_of_pos (show (0 : ℚ) < 1000 by norm_num)]
      rw [div_le_div_iff (by norm_num) (by norm_num)]
      linarith [habs]

/-- C6 witness: a `Change` event with state 1 and a concrete timestamp
round-trips through encode and decode. -/
theorem C6_witness :
    decode (encodeEvent (GateEvent.Change "slot1" 1 "2024-01-01 00:00:00")).1
        (encodeEvent (GateEvent.Change "slot1" 1 "2024-01-01 00:00:00")).2
      = Except.ok (Decoded.changeMsg "slot1" (some 1)) :=
  (C6_wire_roundtrip 1 (mkRat 1 2) "2024-01-01 00:00:00" "2024-01-02 00:00:00"
    (Or.inr rfl) (by decide) (by decide) (by decide) (by decide)).1
